import Mathlib

/-!
Verification of the dependent decoding combinators of `feanor-serde`
(src/seq.rs, src/dependent_tuple.rs, src/rust_struct.rs, src/rust_enum.rs)
against their specification.

The serde data model is embedded shallowly: a deserializer's input region is a
`Value` tree; an element seed is a function `Value → Except DeError α` (its
`deserialize` on the element's region); a `SeqAccess` is the list of remaining
element regions; a `MapAccess` is the list of remaining (key, value) entries,
with keys already run through `deserialize_identifier` into `Key` tokens.
Iterators of seeds are modelled by the finite prefix that a decode can consume,
i.e. a `List` of seeds.

Rust `usize` arithmetic is modelled with overflow checks (debug semantics): an
underflowing subtraction is a `panic` outcome, not a wrapped value.  Calling
`next_key_seed` while the previous entry's value was never consumed breaches
the `MapAccess` contract; serde leaves the behaviour to the format (serde_json
reports a parse error), so it is modelled as a distinguished `violation`
outcome.
-/

/-- Identifier token produced by `deserialize_identifier`: an ordinal
(`visit_u64`), a field/variant name (`visit_str`), or raw identifier bytes
(`visit_bytes`).  Byte tokens are modelled by the string they spell; the
sources only compare them against `stringify!(...).as_bytes()` of valid UTF-8
names, and `String::from_utf8_lossy` is the identity on valid UTF-8. -/
inductive Key where
  | ord (n : Nat)
  | name (s : String)
  | bytes (s : String)
deriving DecidableEq, Repr

/-- A value of the serde data model, as far as the decoders under
verification inspect it. -/
inductive Value where
  | int (n : Int)
  | str (s : String)
  | seq (elems : List Value)
  | map (entries : List (Key × Value))

/-- Decode errors raised through the `serde::de::Error` constructors used by
the sources.  `invalid_value` is only ever called with
`Unexpected::Unsigned`, so that specialisation is embedded. -/
inductive DeError where
  | invalidLength (len : Nat) (expected : String)
  | invalidValueUnsigned (value : Nat) (expected : String)
  | unknownVariant (token : String) (valid : List String)
  | duplicateField (name : String)
  | missingField (name : String)
  | invalidType (expected : String)
  | custom (msg : String)
deriving DecidableEq, Repr

/-- Outcome of running a visitor: success, a returned `serde::de::Error`, a
Rust panic (e.g. arithmetic overflow under debug semantics), or a breach of a
serde access contract whose concrete behaviour is format-defined. -/
inductive DeOutcome (α : Type) where
  | ok (a : α)
  | err (e : DeError)
  | panic (msg : String)
  | violation (msg : String)
deriving DecidableEq, Repr

/-- Lift a seed's `Except` result into a visitor outcome (the `?` operator on
a `next_element_seed` / `next_value_seed` call). -/
def liftSeed {α : Type} : Except DeError α → DeOutcome α
  | .ok a => .ok a
  | .error e => .err e

/-- `SerializableSeq::serialize` (src/seq.rs, lines 36-45): serialize each
element of the iterator in order into one seq of the serde data model.  The
optional length hint only parametrises the format, not the data-model value. -/
def SerializableSeq.serialize {α : Type} (ser : α → Value) (data : List α) : Value :=
  .seq (data.map ser)

/-- The `while let Some(seed) = self.seeds.next()` loop of
`DeserializeSeedSeq`'s `ResultVisitor::visit_seq` (src/seq.rs, lines
135-150).  State: remaining seeds, remaining sequence elements, `result`
accumulator and `current_len`.  When the seeds run out, the source builds the
message `format!("a sequence of length at most {}", current_len - 1)`;
`current_len - 1` is a `usize` subtraction, which panics on underflow. -/
def DeserializeSeedSeq.visit_seq {β T : Type} (collector : T → β → T) :
    List (Value → Except DeError β) → List Value → T → Nat → DeOutcome T
  | [], _, _, currentLen =>
    match currentLen with
    | 0 => .panic "attempt to subtract with overflow"
    | n + 1 =>
      .err (.invalidLength (n + 1) ("a sequence of length at most " ++ toString n))
  | seed :: seeds, elems, result, currentLen =>
    match elems with
    | [] => .ok result
    | el :: rest =>
      match seed el with
      | .error e => .err e
      | .ok v => DeserializeSeedSeq.visit_seq collector seeds rest (collector result v) (currentLen + 1)

/-- `DeserializeSeedSeq::deserialize` (src/seq.rs, lines 109-161):
`deserialize_seq` hands the visitor the input's sequence region; on any other
shape the visitor's only implemented method is not called and serde's default
raises an invalid-type error mentioning `expecting`. -/
def DeserializeSeedSeq.deserialize {β T : Type} (seeds : List (Value → Except DeError β))
    (initial : T) (collector : T → β → T) : Value → DeOutcome T
  | .seq elems => DeserializeSeedSeq.visit_seq collector seeds elems initial 0
  | _ => .err (.invalidType "a sequence of elements")

/-- An element seed for a plain `i64` (`PhantomData::<i64>` in the sources'
tests): decode an integer scalar, anything else is a type error. -/
def intSeed : Value → Except DeError Int
  | .int n => .ok n
  | _ => .error (.invalidType "i64")

/-- The push-style fold `|mut current, next| { current.push(next); current }`
used throughout the sources' tests. -/
def listPush {α : Type} (acc : List α) (x : α) : List α := acc ++ [x]

theorem listPush_foldl {α : Type} (v : List α) :
    ∀ acc : List α, v.foldl listPush acc = acc ++ v := by
  induction v with
  | nil => intro acc; simp
  | cons x xs ih => intro acc; simp [listPush, ih]

theorem visit_seq_roundtrip {α T : Type} (coll : T → α → T) (ser : α → Value)
    (v : List α) :
    ∀ (seedsFront seedsRest : List (Value → Except DeError α)) (acc : T) (k : Nat),
      List.Forall₂ (fun s x => s (ser x) = Except.ok x) seedsFront v →
      seedsRest ≠ [] →
      DeserializeSeedSeq.visit_seq coll (seedsFront ++ seedsRest) (v.map ser) acc k
        = .ok (v.foldl coll acc) := by
  induction v with
  | nil =>
    intro seedsFront seedsRest acc k hf hne
    cases hf
    cases seedsRest with
    | nil => exact absurd rfl hne
    | cons s rest => simp [DeserializeSeedSeq.visit_seq]
  | cons x xs ih =>
    intro seedsFront seedsRest acc k hf hne
    cases hf with
    | cons hx hxs =>
      rename_i s ss
      simp only [List.cons_append, List.map_cons, DeserializeSeedSeq.visit_seq, hx]
      simpa using ih ss seedsRest (coll acc x) (k + 1) hxs hne

/-- C1: encoding a finite list with `SerializableSeq` and decoding it with
`DeserializeSeedSeq` — given one more seed than the list has elements (the
first `length v` seeds decoding the respective encoded elements), an empty
initial accumulator and the push-style fold — returns exactly the original
list: elements are folded in input order and the end-of-sequence signal makes
the visitor return the accumulator as the success value. -/
theorem seq_roundtrip {α : Type} (ser : α → Value) (v : List α)
    (seedsFront seedsRest : List (Value → Except DeError α))
    (hdec : List.Forall₂ (fun s x => s (ser x) = Except.ok x) seedsFront v)
    (hprobe : seedsRest ≠ []) :
    DeserializeSeedSeq.deserialize (seedsFront ++ seedsRest) ([] : List α) listPush
      (SerializableSeq.serialize ser v) = .ok v := by
  simp only [SerializableSeq.serialize, DeserializeSeedSeq.deserialize]
  rw [visit_seq_roundtrip listPush ser v seedsFront seedsRest [] 0 hdec hprobe,
    listPush_foldl]
  simp

/-- C1, witness: `[]`, `[1, 3]` and `[1, 3, 4]` round-trip exactly. -/
theorem seq_roundtrip_witness :
    DeserializeSeedSeq.deserialize ([] ++ [intSeed]) ([] : List Int) listPush
      (SerializableSeq.serialize Value.int ([] : List Int)) = .ok []
    ∧ DeserializeSeedSeq.deserialize ([intSeed, intSeed] ++ [intSeed]) ([] : List Int)
        listPush (SerializableSeq.serialize Value.int [1, 3]) = .ok [1, 3]
    ∧ DeserializeSeedSeq.deserialize ([intSeed, intSeed, intSeed] ++ [intSeed])
        ([] : List Int) listPush (SerializableSeq.serialize Value.int [1, 3, 4])
        = .ok [1, 3, 4] :=
  ⟨seq_roundtrip Value.int [] [] [intSeed] .nil (by simp),
   seq_roundtrip Value.int [1, 3] [intSeed, intSeed] [intSeed]
     (.cons rfl (.cons rfl .nil)) (by simp),
   seq_roundtrip Value.int [1, 3, 4] [intSeed, intSeed, intSeed] [intSeed]
     (.cons rfl (.cons rfl (.cons rfl .nil))) (by simp)⟩

theorem visit_seq_nil_acc_irrel {β T : Type} (coll : T → β → T) (a b : T) (n : Nat) :
    DeserializeSeedSeq.visit_seq coll ([] : List (Value → Except DeError β)) [] a n
      = DeserializeSeedSeq.visit_seq coll [] [] b n := by
  cases n <;> simp [DeserializeSeedSeq.visit_seq]

theorem visit_seq_exhausted {β T : Type} (coll : T → β → T) (pairs : List (Value × β)) :
    ∀ (seeds : List (Value → Except DeError β)) (acc : T) (k : Nat),
      List.Forall₂ (fun s (p : Value × β) => s p.1 = Except.ok p.2) seeds pairs →
      DeserializeSeedSeq.visit_seq coll seeds (pairs.map Prod.fst) acc k
        = DeserializeSeedSeq.visit_seq coll [] [] acc (k + pairs.length) := by
  induction pairs with
  | nil =>
    intro seeds acc k hf
    cases hf
    simp
  | cons p ps ih =>
    intro seeds acc k hf
    cases hf with
    | cons hx hxs =>
      rename_i s ss
      simp only [List.map_cons, DeserializeSeedSeq.visit_seq, hx]
      rw [ih ss _ (k + 1) hxs]
      have harith : k + 1 + ps.length = k + (p :: ps).length := by
        simp; omega
      rw [harith]
      exact visit_seq_nil_acc_irrel coll _ acc _

/-- C2 (amended): if the seed iterator is exhausted before the context reports
end-of-sequence, decoding fails with an `InvalidLength` error rather than
returning a truncated accumulator, *provided the input has k ≥ 1 elements*:
for every nonempty k-element input, a seed stream of length exactly k (no
extra probe seed) fails with `invalid_length(k, "a sequence of length at most
k-1")`.  For k = 0 (an empty seed stream on an empty sequence) the error
branch does not return `InvalidLength` — it panics on a `usize` underflow
while formatting the message (see the counterexample). -/
theorem seq_seed_exhaustion_invalid_length {β T : Type} (pairs : List (Value × β))
    (seeds : List (Value → Except DeError β)) (initial : T) (coll : T → β → T)
    (hdec : List.Forall₂ (fun s (p : Value × β) => s p.1 = Except.ok p.2) seeds pairs)
    (hne : pairs ≠ []) :
    DeserializeSeedSeq.deserialize seeds initial coll (.seq (pairs.map Prod.fst))
      = .err (.invalidLength pairs.length
          ("a sequence of length at most " ++ toString (pairs.length - 1))) := by
  simp only [DeserializeSeedSeq.deserialize]
  rw [visit_seq_exhausted coll pairs seeds initial 0 hdec]
  cases pairs with
  | nil => exact absurd rfl hne
  | cons p ps => simp [DeserializeSeedSeq.visit_seq]

/-- C2, counterexample: a 0-element input sequence decoded with a seed stream
of length exactly 0 does not fail with an `InvalidLength` error as the claim
states for every k — the error branch hits the `usize` underflow
`current_len - 1` and panics. -/
theorem seq_exact_seeds_zero_panics :
    DeserializeSeedSeq.deserialize ([] : List (Value → Except DeError Int))
      ([] : List Int) listPush (.seq []) = .panic "attempt to subtract with overflow" := rfl

/-- C2, witness: a 2-element input with a seed stream of exactly 2 seeds fails
with `invalid_length(2, "a sequence of length at most 1")`. -/
theorem seq_seed_exhaustion_invalid_length_witness :
    DeserializeSeedSeq.deserialize [intSeed, intSeed] ([] : List Int) listPush
      (.seq [Value.int 1, Value.int 3])
      = .err (.invalidLength 2 ("a sequence of length at most " ++ toString 1)) :=
  seq_seed_exhaustion_invalid_length [(Value.int 1, (1 : Int)), (Value.int 3, 3)]
    [intSeed, intSeed] [] listPush (.cons rfl (.cons rfl .nil)) (by simp)

theorem visit_seq_no_panic_of_pos {β T : Type} (coll : T → β → T) :
    ∀ (seeds : List (Value → Except DeError β)) (elems : List Value) (acc : T)
      (k : Nat) (msg : String), 1 ≤ k →
      DeserializeSeedSeq.visit_seq coll seeds elems acc k ≠ .panic msg := by
  intro seeds
  induction seeds with
  | nil =>
    intro elems acc k msg hk
    cases k with
    | zero => omega
    | succ n => simp [DeserializeSeedSeq.visit_seq]
  | cons s ss ih =>
    intro elems acc k msg hk
    cases elems with
    | nil => simp [DeserializeSeedSeq.visit_seq]
    | cons el rest =>
      simp only [DeserializeSeedSeq.visit_seq]
      cases h : s el with
      | error e => simp
      | ok v => exact ih rest (coll acc v) (k + 1) msg (by omega)

/-- C10: if the seed iterator yields no seed at all while the input contains a
sequence region, the error branch of `visit_seq` evaluates `current_len - 1`
with `current_len = 0` in unsigned arithmetic and panics on the underflow
instead of returning the `InvalidLength` error; with at least one seed
produced the error path never panics. -/
theorem seq_error_branch_underflow {β T : Type} (initial : T) (coll : T → β → T) :
    (∀ elems : List Value,
      DeserializeSeedSeq.deserialize ([] : List (Value → Except DeError β)) initial coll
        (.seq elems) = .panic "attempt to subtract with overflow")
    ∧ ∀ (seeds : List (Value → Except DeError β)) (elems : List Value) (msg : String),
        seeds ≠ [] →
        DeserializeSeedSeq.deserialize seeds initial coll (.seq elems) ≠ .panic msg := by
  constructor
  · intro elems
    simp [DeserializeSeedSeq.deserialize, DeserializeSeedSeq.visit_seq]
  · intro seeds elems msg hne
    cases seeds with
    | nil => exact absurd rfl hne
    | cons s ss =>
      simp only [DeserializeSeedSeq.deserialize]
      cases elems with
      | nil => simp [DeserializeSeedSeq.visit_seq]
      | cons el rest =>
        simp only [DeserializeSeedSeq.visit_seq]
        cases h : s el with
        | error e => simp
        | ok v =>
          simpa using visit_seq_no_panic_of_pos coll ss rest (coll initial v) 1 msg (by omega)

/-- C10, witness: with no seed at all the decode panics on the underflow even
though the input is a well-formed sequence; with one seed it does not. -/
theorem seq_error_branch_underflow_witness :
    DeserializeSeedSeq.deserialize ([] : List (Value → Except DeError Int))
      ([] : List Int) listPush (.seq [Value.int 5])
      = .panic "attempt to subtract with overflow"
    ∧ DeserializeSeedSeq.deserialize [intSeed] ([] : List Int) listPush (.seq [])
      ≠ .panic "attempt to subtract with overflow" :=
  ⟨(seq_error_branch_underflow ([] : List Int) listPush).1 [Value.int 5],
   (seq_error_branch_underflow ([] : List Int) listPush).2 [intSeed] []
     "attempt to subtract with overflow" (by simp)⟩

/-- The `visit_seq` of `DeserializeSeedDependentTuple`'s `ResultVisitor`
(src/dependent_tuple.rs, lines 86-98): decode element 0 with `first`; with no
element fail `invalid_length(0, "a tuple with 2 elements")`; derive the second
seed from the decoded value and decode element 1 with it; with no second
element fail `invalid_length(1, "a tuple with 2 elements")`; return the second
value.  Elements beyond the second are not read. -/
def DeserializeSeedDependentTuple.visit_seq {A B : Type}
    (first : Value → Except DeError A) (derive_second : A → Value → Except DeError B) :
    List Value → DeOutcome B
  | [] => .err (.invalidLength 0 "a tuple with 2 elements")
  | e0 :: rest =>
    match first e0 with
    | .error e => .err e
    | .ok a =>
      match rest with
      | [] => .err (.invalidLength 1 "a tuple with 2 elements")
      | e1 :: _ => liftSeed (derive_second a e1)

/-- `DeserializeSeedDependentTuple::deserialize` (src/dependent_tuple.rs,
lines 62-107): `deserialize_tuple(2, ...)` hands the visitor the 2-element
tuple-shaped region of the input. -/
def DeserializeSeedDependentTuple.deserialize {A B : Type}
    (first : Value → Except DeError A) (derive_second : A → Value → Except DeError B) :
    Value → DeOutcome B
  | .seq elems => DeserializeSeedDependentTuple.visit_seq first derive_second elems
  | _ => .err (.invalidType "a tuple with 2 elements")

/-- C3: on a 2-element tuple region the dependent-tuple decoder decodes
element 0 with the first seed yielding `a`, derives the second seed as
`derive_second a`, decodes element 1 with it and returns exactly that result
(`a` is not part of the result); an empty region fails with
`invalid_length(0, "a tuple with 2 elements")`, and a 1-element region whose
only element decodes fails with `invalid_length(1, "a tuple with 2
elements")`. -/
theorem dependent_tuple_spec {A B : Type}
    (first : Value → Except DeError A) (derive_second : A → Value → Except DeError B) :
    (∀ (e0 e1 : Value) (rest : List Value) (a : A), first e0 = .ok a →
      DeserializeSeedDependentTuple.deserialize first derive_second
        (.seq (e0 :: e1 :: rest)) = liftSeed (derive_second a e1))
    ∧ (DeserializeSeedDependentTuple.deserialize first derive_second (.seq [])
        = .err (.invalidLength 0 "a tuple with 2 elements"))
    ∧ ∀ (e0 : Value) (a : A), first e0 = .ok a →
        DeserializeSeedDependentTuple.deserialize first derive_second (.seq [e0])
          = .err (.invalidLength 1 "a tuple with 2 elements") := by
  refine ⟨?_, rfl, ?_⟩
  · intro e0 e1 rest a ha
    simp [DeserializeSeedDependentTuple.deserialize,
      DeserializeSeedDependentTuple.visit_seq, ha]
  · intro e0 a ha
    simp [DeserializeSeedDependentTuple.deserialize,
      DeserializeSeedDependentTuple.visit_seq, ha]

/-- C3, witness: decoding `(3, [0, 0, 0])`-style input where the first element
picks the second seed; plus the two truncation errors at concrete inputs. -/
theorem dependent_tuple_spec_witness :
    DeserializeSeedDependentTuple.deserialize intSeed
      (fun n => fun v => (intSeed v).map (fun m => n + m))
      (.seq [Value.int 3, Value.int 10]) = .ok 13
    ∧ DeserializeSeedDependentTuple.deserialize intSeed
        (fun _ => intSeed) (.seq []) = .err (.invalidLength 0 "a tuple with 2 elements")
    ∧ DeserializeSeedDependentTuple.deserialize intSeed
        (fun _ => intSeed) (.seq [Value.int 3])
        = .err (.invalidLength 1 "a tuple with 2 elements") :=
  ⟨(dependent_tuple_spec intSeed (fun n => fun v => (intSeed v).map (fun m => n + m))).1
      (Value.int 3) (Value.int 10) [] 3 rfl,
   (dependent_tuple_spec intSeed (fun _ => intSeed)).2.1,
   (dependent_tuple_spec intSeed (fun _ => intSeed)).2.2 (Value.int 3) 3 rfl⟩

/-- Map a function over a successful outcome, keeping failures. -/
def DeOutcome.map {α β : Type} (f : α → β) : DeOutcome α → DeOutcome β
  | .ok a => .ok (f a)
  | .err e => .err e
  | .panic m => .panic m
  | .violation m => .violation m

/-- One declared field of `impl_deserialize_seed_for_dependent_struct!`: its
name (`stringify!($field)`) and its seed derivation
`$local_deserialize_seed : &Seed -> DeserializeSeed`, fused with the derived
seed's `deserialize` into `Base → Value → Except DeError F`. -/
structure FieldSpec (Base F : Type) where
  name : String
  deriveSeed : Base → Value → Except DeError F

/-- The first-match scan of the macro-generated `FieldVisitor::visit_str` /
`visit_bytes` (src/rust_struct.rs, lines 222-247 and src/rust_enum.rs, lines
100-126): compare the token against the declared names in order, returning the
index of the first match. -/
def firstMatchIdx : List String → String → Option Nat
  | [], _ => none
  | n :: rest, s => if s = n then some 0 else (firstMatchIdx rest s).map (· + 1)

/-- The struct `FieldVisitor` (src/rust_struct.rs, lines 202-248) through
`deserialize_identifier`: `visit_u64` maps an in-range ordinal to itself and
an out-of-range one to `None`; `visit_str`/`visit_bytes` map an unmatched name
to `None`.  `None` means "unknown field". -/
def structFieldId (names : List String) : Key → Option Nat
  | .ord n => if n ≥ names.length then none else some n
  | .name s => firstMatchIdx names s
  | .bytes s => firstMatchIdx names s

/-- The macro-generated `ResultVisitor::visit_seq` (src/rust_struct.rs, lines
277-294): decode the declared fields in order, each with a seed freshly
derived from the shared base; when the sequence region runs out first, fail
with `invalid_length(encountered_fields, "struct <name> with <FIELD_COUNT>
elements")`.  Elements beyond the declared fields are never read. -/
def DependentStruct.visit_seq {Base F : Type} (structName : String) (fieldCount : Nat)
    (base : Base) : List (FieldSpec Base F) → List Value → Nat → DeOutcome (List F)
  | [], _, _ => .ok []
  | fs :: frest, elems, encountered =>
    match elems with
    | [] => .err (.invalidLength encountered
        ("struct " ++ structName ++ " with " ++ toString fieldCount ++ " elements"))
    | e :: erest =>
      match fs.deriveSeed base e with
      | .error er => .err er
      | .ok v =>
        (DependentStruct.visit_seq structName fieldCount base frest erest
          (encountered + 1)).map (v :: ·)

/-- The field check after the `visit_map` loop (src/rust_struct.rs, lines
318-327): in declared order, a field whose slot was never filled raises
`missing_field(name)`; otherwise the struct is assembled from the slots. -/
def DependentStruct.finalize {Base F : Type} :
    List (FieldSpec Base F) → List (Option F) → DeOutcome (List F)
  | [], _ => .ok []
  | fs :: _, [] => .err (.missingField fs.name)
  | fs :: _, none :: _ => .err (.missingField fs.name)
  | _ :: frest, some v :: srest => (DependentStruct.finalize frest srest).map (v :: ·)

/-- The macro-generated `ResultVisitor::visit_map` loop (src/rust_struct.rs,
lines 296-328).  State: remaining (key, value) entries and one `Option` slot
per declared field.  A known key with a filled slot raises
`duplicate_field`; a known key with an empty slot decodes the entry's value
with the field's seed freshly derived from the shared base.  An unknown key
(`FieldVisitor` returned `None`) takes the empty loop body, so the entry's
value is never consumed and the following `next_key_seed` call breaches the
`MapAccess` contract — with serde_json this surfaces as a parse error. -/
def DependentStruct.visit_map {Base F : Type} (base : Base)
    (fields : List (FieldSpec Base F)) :
    List (Key × Value) → List (Option F) → DeOutcome (List F)
  | [], slots => DependentStruct.finalize fields slots
  | (k, v) :: rest, slots =>
    match structFieldId (fields.map FieldSpec.name) k with
    | none => .violation "next_key_seed called while the previous entry's value is unconsumed"
    | some i =>
      match fields[i]? with
      | none => .panic "unreachable"
      | some fs =>
        match slots.getD i none with
        | some _ => .err (.duplicateField fs.name)
        | none =>
          match fs.deriveSeed base v with
          | .error e => .err e
          | .ok fv => DependentStruct.visit_map base fields rest (slots.set i (some fv))

/-- The `DeserializeSeed::deserialize` generated by
`impl_deserialize_seed_for_dependent_struct!` (src/rust_struct.rs, lines
190-336): `deserialize_struct` drives the visitor with either the positional
(sequence-shaped) or the associative (map-shaped) region of a self-describing
input; the struct value is modelled as the list of its field values in
declared order. -/
def DependentStruct.deserialize {Base F : Type} (structName : String) (base : Base)
    (fields : List (FieldSpec Base F)) : Value → DeOutcome (List F)
  | .seq elems => DependentStruct.visit_seq structName fields.length base fields elems 0
  | .map entries =>
      DependentStruct.visit_map base fields entries (List.replicate fields.length none)
  | _ => .err (.invalidType ("struct " ++ structName))

theorem struct_visit_seq_ok {Base F : Type} (structName : String) (fieldCount : Nat)
    (base : Base) (pairs : List (FieldSpec Base F × Value)) :
    ∀ (outs : List F) (extra : List Value) (k : Nat),
      List.Forall₂ (fun (p : FieldSpec Base F × Value) out =>
        p.1.deriveSeed base p.2 = Except.ok out) pairs outs →
      DependentStruct.visit_seq structName fieldCount base (pairs.map Prod.fst)
        (pairs.map Prod.snd ++ extra) k = .ok outs := by
  induction pairs with
  | nil =>
    intro outs extra k hf
    cases hf
    simp [DependentStruct.visit_seq]
  | cons p ps ih =>
    intro outs extra k hf
    cases hf with
    | cons hx hxs =>
      rename_i out outsRest
      simp only [List.map_cons, List.cons_append, DependentStruct.visit_seq, hx]
      rw [ih outsRest extra (k + 1) hxs]
      rfl

theorem struct_visit_seq_short {Base F : Type} (structName : String) (fieldCount : Nat)
    (base : Base) (pairs : List (FieldSpec Base F × Value)) :
    ∀ (outs : List F) (fs : FieldSpec Base F) (frest : List (FieldSpec Base F)) (k : Nat),
      List.Forall₂ (fun (p : FieldSpec Base F × Value) out =>
        p.1.deriveSeed base p.2 = Except.ok out) pairs outs →
      DependentStruct.visit_seq structName fieldCount base
        (pairs.map Prod.fst ++ (fs :: frest)) (pairs.map Prod.snd) k
        = .err (.invalidLength (k + pairs.length)
            ("struct " ++ structName ++ " with " ++ toString fieldCount ++ " elements")) := by
  induction pairs with
  | nil =>
    intro outs fs frest k hf
    cases hf
    simp [DependentStruct.visit_seq]
  | cons p ps ih =>
    intro outs fs frest k hf
    cases hf with
    | cons hx hxs =>
      rename_i out outsRest
      simp only [List.map_cons, List.cons_append, DependentStruct.visit_seq, hx,
        List.append_eq]
      rw [ih outsRest fs frest (k + 1) hxs]
      have : k + 1 + ps.length = k + (p :: ps).length := by simp; omega
      rw [this]
      rfl

/-- C4: in positional representation the generated struct decoder decodes the
N declared fields in declared order, each with a seed freshly derived from
the shared base seed; with fewer than N elements it fails with
`invalid_length(encountered, "struct <name> with <N> elements")`; elements
beyond the N-th are never read (the result is independent of them). -/
theorem struct_positional {Base F : Type} (structName : String) (base : Base) :
    (∀ (pairs : List (FieldSpec Base F × Value)) (outs : List F) (extra : List Value),
      List.Forall₂ (fun (p : FieldSpec Base F × Value) out =>
        p.1.deriveSeed base p.2 = Except.ok out) pairs outs →
      DependentStruct.deserialize structName base (pairs.map Prod.fst)
        (.seq (pairs.map Prod.snd ++ extra)) = .ok outs)
    ∧ ∀ (pairs : List (FieldSpec Base F × Value)) (outs : List F)
        (fs : FieldSpec Base F) (frest : List (FieldSpec Base F)),
        List.Forall₂ (fun (p : FieldSpec Base F × Value) out =>
          p.1.deriveSeed base p.2 = Except.ok out) pairs outs →
        DependentStruct.deserialize structName base (pairs.map Prod.fst ++ (fs :: frest))
          (.seq (pairs.map Prod.snd))
          = .err (.invalidLength pairs.length
              ("struct " ++ structName ++ " with "
                ++ toString (pairs.length + (frest.length + 1)) ++ " elements")) := by
  constructor
  · intro pairs outs extra hf
    simp only [DependentStruct.deserialize]
    exact struct_visit_seq_ok structName (pairs.map Prod.fst).length base pairs outs extra 0 hf
  · intro pairs outs fs frest hf
    simp only [DependentStruct.deserialize]
    rw [struct_visit_seq_short structName (pairs.map Prod.fst ++ fs :: frest).length base
      pairs outs fs frest 0 hf]
    simp only [List.length_append, List.length_map, List.length_cons, Nat.zero_add]

/-- A 2-field struct spec mirroring the `Foo { a: i64, b: String }` tests
(with both leaves as plain integers): field `a`. -/
def fieldA : FieldSpec Unit Int := ⟨"a", fun _ => intSeed⟩

/-- Field `b` of the 2-field test struct. -/
def fieldB : FieldSpec Unit Int := ⟨"b", fun _ => intSeed⟩

/-- C4, witness: a 2-field struct decodes positionally from a 2-element prefix
(a third element is never read), and a 1-element input fails with
`invalid_length(1, "struct Foo with 2 elements")`. -/
theorem struct_positional_witness :
    DependentStruct.deserialize "Foo" () ([(fieldA, Value.int 42), (fieldB, Value.int 7)].map Prod.fst)
      (.seq ([(fieldA, Value.int 42), (fieldB, Value.int 7)].map Prod.snd ++ [Value.int 99]))
      = .ok [42, 7]
    ∧ DependentStruct.deserialize "Foo" () ([(fieldA, Value.int 42)].map Prod.fst ++ [fieldB])
        (.seq ([(fieldA, Value.int 42)].map Prod.snd))
        = .err (.invalidLength 1 ("struct Foo with " ++ toString (1 + (0 + 1)) ++ " elements")) :=
  ⟨(struct_positional "Foo" ()).1 [(fieldA, Value.int 42), (fieldB, Value.int 7)] [42, 7]
      [Value.int 99] (.cons rfl (.cons rfl .nil)),
   (struct_positional "Foo" ()).2 [(fieldA, Value.int 42)] [42] fieldB []
      (.cons rfl .nil)⟩

/-- C5, code evaluation at the failing input: associative input
`{a: 1, c: 7, b: 2}` against the declared fields `a, b` — the unrecognized
key `c` is mapped to "unknown" by the `FieldVisitor`, the loop body does
nothing with it, the entry's value is never consumed, and the next
`next_key_seed` call breaches the `MapAccess` contract (with serde_json this
is a parse error), instead of skipping the value and succeeding as the claim
states. -/
theorem struct_unknown_key_not_skipped :
    DependentStruct.deserialize "Foo" () [fieldA, fieldB]
      (.map [(Key.name "a", Value.int 1), (Key.name "c", Value.int 7),
             (Key.name "b", Value.int 2)])
      = .violation "next_key_seed called while the previous entry's value is unconsumed" := by
  rfl

theorem firstMatchIdx_of_nodup :
    ∀ (names : List String), names.Nodup → ∀ (j : Nat) (s : String),
      names[j]? = some s → firstMatchIdx names s = some j := by
  intro names
  induction names with
  | nil => intro _ j s h; simp at h
  | cons n ns ih =>
    intro hnd j s h
    cases j with
    | zero =>
      simp only [List.getElem?_cons_zero, Option.some_inj] at h
      subst h
      simp [firstMatchIdx]
    | succ m =>
      simp only [List.getElem?_cons_succ] at h
      have hsmem : s ∈ ns := List.getElem?_mem h
      have hne : s ≠ n := by
        intro he
        subst he
        exact (List.nodup_cons.mp hnd).1 hsmem
      simp only [firstMatchIdx, if_neg hne]
      rw [ih (List.nodup_cons.mp hnd).2 m s h]
      rfl

theorem structFieldId_name {Base F : Type} {fields : List (FieldSpec Base F)}
    (hnd : (fields.map FieldSpec.name).Nodup) {j : Nat} {fs : FieldSpec Base F}
    (hget : fields[j]? = some fs) :
    structFieldId (fields.map FieldSpec.name) (Key.name fs.name) = some j := by
  have hname : (fields.map FieldSpec.name)[j]? = some fs.name := by
    rw [List.getElem?_map, hget]
    rfl
  simpa [structFieldId] using firstMatchIdx_of_nodup _ hnd j fs.name hname

theorem getD_replicate_none {F : Type} (N j : Nat) :
    (List.replicate N (none : Option F)).getD j none = none := by
  rw [List.getD_eq_getElem?_getD, List.getElem?_replicate]
  split <;> simp

/-- The associative entry the encoder of a struct produces for field index
`j`: the field's declared name as key, paired with the input value chosen for
that field. -/
def canonicalEntry {Base F : Type} (fields : List (FieldSpec Base F))
    (val : Nat → Value) (j : Nat) : Key × Value :=
  (Key.name (((fields[j]?).map FieldSpec.name).getD ""), val j)

theorem visit_map_known_loop {Base F : Type} (base : Base)
    (fields : List (FieldSpec Base F)) (val : Nat → Value) (out : Nat → F)
    (hnd : (fields.map FieldSpec.name).Nodup)
    (hdec : ∀ (j : Nat) (fs : FieldSpec Base F), fields[j]? = some fs →
      fs.deriveSeed base (val j) = Except.ok (out j)) :
    ∀ (idxs : List Nat) (slots : List (Option F)),
      slots.length = fields.length →
      idxs.Nodup →
      (∀ j ∈ idxs, j < fields.length ∧ slots[j]? = some none) →
      DependentStruct.visit_map base fields (idxs.map (canonicalEntry fields val)) slots
        = DependentStruct.finalize fields
            (idxs.foldl (fun s j => s.set j (some (out j))) slots) := by
  intro idxs
  induction idxs with
  | nil => intro slots _ _ _; rfl
  | cons j rest ih =>
    intro slots hlen hnodup hmem
    obtain ⟨hjlt, hslot⟩ := hmem j (by simp)
    have hfs : fields[j]? = some (fields[j]) := List.getElem?_eq_getElem hjlt
    have hid : structFieldId (fields.map FieldSpec.name) (Key.name (fields[j]).name)
        = some j := structFieldId_name hnd hfs
    have hkey : canonicalEntry fields val j = (Key.name (fields[j]).name, val j) := by
      simp [canonicalEntry, hfs]
    have hgetD : slots.getD j none = none := by
      rw [List.getD_eq_getElem?_getD, hslot]
      rfl
    rw [List.map_cons, hkey]
    simp only [DependentStruct.visit_map, hid, hfs, hgetD, hdec j (fields[j]) hfs]
    rw [ih (slots.set j (some (out j)))
      (by rw [List.length_set]; exact hlen)
      (List.nodup_cons.mp hnodup).2
      (by
        intro j' hj'
        obtain ⟨hlt', hslot'⟩ := hmem j' (List.mem_cons_of_mem j hj')
        refine ⟨hlt', ?_⟩
        have hne : j ≠ j' := by
          intro he
          subst he
          exact (List.nodup_cons.mp hnodup).1 hj'
        rw [List.getElem?_set_ne hne]
        exact hslot')]
    rfl

theorem foldl_set_getElem? {F : Type} (out : Nat → F) :
    ∀ (idxs : List Nat) (slots : List (Option F)) (j : Nat),
      idxs.Nodup → (∀ i ∈ idxs, i < slots.length) →
      (idxs.foldl (fun s i => s.set i (some (out i))) slots)[j]?
        = if j ∈ idxs then some (some (out j)) else slots[j]? := by
  intro idxs
  induction idxs with
  | nil => intro slots j _ _; simp
  | cons i rest ih =>
    intro slots j hnd hlt
    simp only [List.foldl_cons]
    rw [ih (slots.set i (some (out i))) j (List.nodup_cons.mp hnd).2
      (fun i' h' => by
        rw [List.length_set]
        exact hlt i' (List.mem_cons_of_mem i h'))]
    by_cases hj : j ∈ rest
    · simp [hj, List.mem_cons]
    · simp only [hj, if_false]
      by_cases hij : j = i
      · subst hij
        rw [List.getElem?_set_eq_of_lt _ (hlt j (by simp))]
        simp [List.mem_cons]
      · rw [List.getElem?_set_ne (fun he => hij he.symm)]
        simp [List.mem_cons, hij, hj]

theorem finalize_map_some {Base F : Type} :
    ∀ (fields : List (FieldSpec Base F)) (xs : List F), xs.length = fields.length →
      DependentStruct.finalize fields (xs.map some) = .ok xs := by
  intro fields
  induction fields with
  | nil =>
    intro xs h
    cases xs with
    | nil => rfl
    | cons x xrest => simp at h
  | cons fs frest ih =>
    intro xs h
    cases xs with
    | nil => simp at h
    | cons x xrest =>
      simp only [List.map_cons, DependentStruct.finalize]
      rw [ih xrest (by simpa using h)]
      rfl

theorem finalize_first_missing {Base F : Type} :
    ∀ (j : Nat) (fields : List (FieldSpec Base F)) (slots : List (Option F))
      (fs : FieldSpec Base F),
      fields[j]? = some fs → slots[j]? = some none →
      (∀ i < j, ∃ x, slots[i]? = some (some x)) →
      DependentStruct.finalize fields slots = .err (.missingField fs.name) := by
  intro j
  induction j with
  | zero =>
    intro fields slots fs hf hs _
    cases fields with
    | nil => simp at hf
    | cons f frest =>
      cases slots with
      | nil => simp at hs
      | cons s srest =>
        simp only [List.getElem?_cons_zero, Option.some_inj] at hf hs
        subst hf
        subst hs
        rfl
  | succ m ih =>
    intro fields slots fs hf hs hbefore
    cases fields with
    | nil => simp at hf
    | cons f frest =>
      cases slots with
      | nil => simp at hs
      | cons s srest =>
        obtain ⟨x, hx⟩ := hbefore 0 (Nat.succ_pos m)
        simp only [List.getElem?_cons_zero, Option.some_inj] at hx
        subst hx
        simp only [DependentStruct.finalize]
        rw [ih frest srest fs (by simpa using hf) (by simpa using hs)
          (fun i hi => by simpa using hbefore (i + 1) (by omega))]
        rfl

/-- C7: in associative mode, when every declared field's key appears exactly
once, the decoded struct is identical regardless of the physical order of the
key/value pairs: for every permutation `idxs` of the field indices, decoding
the entries in that order yields the fields' values in declared order, each
decoded with a seed derived from the same shared base (`hdec` fixes the
decode of field `j` independently of any partial state). -/
theorem struct_map_order_independence {Base F : Type} (structName : String) (base : Base)
    (fields : List (FieldSpec Base F)) (val : Nat → Value) (out : Nat → F)
    (hnd : (fields.map FieldSpec.name).Nodup)
    (hdec : ∀ (j : Nat) (fs : FieldSpec Base F), fields[j]? = some fs →
      fs.deriveSeed base (val j) = Except.ok (out j))
    (idxs : List Nat) (hperm : idxs.Perm (List.range fields.length)) :
    DependentStruct.deserialize structName base fields
      (.map (idxs.map (canonicalEntry fields val)))
      = .ok ((List.range fields.length).map out) := by
  have hnodup : idxs.Nodup := hperm.nodup_iff.mpr (List.nodup_range _)
  have hmemiff : ∀ j, j ∈ idxs ↔ j < fields.length := by
    intro j
    rw [hperm.mem_iff, List.mem_range]
  simp only [DependentStruct.deserialize]
  rw [visit_map_known_loop base fields val out hnd hdec idxs
    (List.replicate fields.length none) (by simp) hnodup
    (by
      intro j hj
      have hjlt := (hmemiff j).mp hj
      exact ⟨hjlt, by simp [List.getElem?_replicate, hjlt]⟩)]
  have hslots : idxs.foldl (fun s j => s.set j (some (out j)))
      (List.replicate fields.length none)
      = (List.range fields.length).map (fun j => some (out j)) := by
    apply List.ext_getElem?
    intro n
    rw [foldl_set_getElem? out idxs _ n hnodup
      (by
        intro i hi
        rw [List.length_replicate]
        exact (hmemiff i).mp hi)]
    by_cases hn : n < fields.length
    · simp [hmemiff n, hn, List.getElem?_map, List.getElem?_range hn]
    · have hlen : ((List.range fields.length).map (fun j => some (out j))).length ≤ n := by
        simp
        omega
      rw [List.getElem?_eq_none hlen]
      simp [hmemiff n, hn, List.getElem?_replicate]
  rw [hslots]
  have hmm : (List.range fields.length).map (fun j => some (out j))
      = ((List.range fields.length).map out).map some := by
    rw [List.map_map]
    rfl
  rw [hmm]
  exact finalize_map_some fields _ (by simp)

/-- Every field of the 2-field test struct decodes the input value chosen for
its index: used to discharge the decode hypotheses of witnesses. -/
theorem fieldAB_dec : ∀ (j : Nat) (fs : FieldSpec Unit Int),
    [fieldA, fieldB][j]? = some fs →
    fs.deriveSeed () (Value.int (Int.ofNat j)) = Except.ok (Int.ofNat j) := by
  intro j fs h
  cases j with
  | zero =>
    simp only [List.getElem?_cons_zero, Option.some_inj] at h
    subst h
    rfl
  | succ m =>
    cases m with
    | zero =>
      simp only [List.getElem?_cons_succ, List.getElem?_cons_zero, Option.some_inj] at h
      subst h
      rfl
    | succ m2 => simp at h

/-- C7, witness: the associative inputs `{b: 1, a: 0}` and `{a: 0, b: 1}` (the
two orders of the full key set) both decode to the same struct value. -/
theorem struct_map_order_independence_witness :
    DependentStruct.deserialize "Foo" () [fieldA, fieldB]
      (.map ([1, 0].map (canonicalEntry [fieldA, fieldB] (fun j => Value.int (Int.ofNat j)))))
      = .ok [0, 1]
    ∧ DependentStruct.deserialize "Foo" () [fieldA, fieldB]
        (.map ([0, 1].map (canonicalEntry [fieldA, fieldB] (fun j => Value.int (Int.ofNat j)))))
        = .ok [0, 1] :=
  ⟨struct_map_order_independence "Foo" () [fieldA, fieldB]
      (fun j => Value.int (Int.ofNat j)) (fun j => Int.ofNat j) (by decide) fieldAB_dec
      [1, 0] (by decide),
   struct_map_order_independence "Foo" () [fieldA, fieldB]
      (fun j => Value.int (Int.ofNat j)) (fun j => Int.ofNat j) (by decide) fieldAB_dec
      [0, 1] (by decide)⟩

/-- C6: in associative mode a declared field's key seen a second time fails
with `duplicate_field` naming that field (part 1, for any continuation of the
input); and if after all entries are consumed some declared field was never
seen, decoding fails with `missing_field` naming that field — the first
missing one in declared order (part 2: the entries cover exactly the indices
`idxs`, field `j` is not among them, all fields declared before `j` are). -/
theorem struct_map_duplicate_and_missing {Base F : Type} (structName : String) (base : Base) :
    (∀ (fields : List (FieldSpec Base F)) (j : Nat) (fs : FieldSpec Base F),
      (fields.map FieldSpec.name).Nodup → fields[j]? = some fs →
      ∀ (v1 v2 : Value) (out1 : F), fs.deriveSeed base v1 = Except.ok out1 →
      ∀ rest : List (Key × Value),
        DependentStruct.deserialize structName base fields
          (.map ((Key.name fs.name, v1) :: (Key.name fs.name, v2) :: rest))
          = .err (.duplicateField fs.name))
    ∧ ∀ (fields : List (FieldSpec Base F)) (val : Nat → Value) (out : Nat → F),
        (fields.map FieldSpec.name).Nodup →
        (∀ (j : Nat) (fs : FieldSpec Base F), fields[j]? = some fs →
          fs.deriveSeed base (val j) = Except.ok (out j)) →
        ∀ idxs : List Nat, idxs.Nodup → (∀ i ∈ idxs, i < fields.length) →
        ∀ (j : Nat) (fs : FieldSpec Base F), fields[j]? = some fs → j ∉ idxs →
          (∀ i < j, i ∈ idxs) →
          DependentStruct.deserialize structName base fields
            (.map (idxs.map (canonicalEntry fields val)))
            = .err (.missingField fs.name) := by
  constructor
  · intro fields j fs hnd hget v1 v2 out1 hdec1 rest
    have hjlt : j < fields.length := (List.getElem?_eq_some.mp hget).1
    have hid := structFieldId_name hnd hget
    have hgetD0 : (List.replicate fields.length (none : Option F)).getD j none = none :=
      getD_replicate_none _ _
    have hgetD1 : ((List.replicate fields.length (none : Option F)).set j
        (some out1)).getD j none = some out1 := by
      rw [List.getD_eq_getElem?_getD, List.getElem?_set_eq_of_lt _
        (by rw [List.length_replicate]; exact hjlt)]
      rfl
    simp only [DependentStruct.deserialize, DependentStruct.visit_map, hid, hget,
      hgetD0, hdec1, hgetD1]
  · intro fields val out hnd hdec idxs hnodup hmem j fs hget hjnot hbefore
    have hjlt : j < fields.length := (List.getElem?_eq_some.mp hget).1
    simp only [DependentStruct.deserialize]
    rw [visit_map_known_loop base fields val out hnd hdec idxs
      (List.replicate fields.length none) (by simp) hnodup
      (fun i hi => ⟨hmem i hi, by simp [List.getElem?_replicate, hmem i hi]⟩)]
    apply finalize_first_missing j fields _ fs hget
    · rw [foldl_set_getElem? out idxs _ j hnodup
        (fun i hi => by rw [List.length_replicate]; exact hmem i hi)]
      simp [hjnot, List.getElem?_replicate, hjlt]
    · intro i hij
      refine ⟨out i, ?_⟩
      rw [foldl_set_getElem? out idxs _ i hnodup
        (fun i' hi' => by rw [List.length_replicate]; exact hmem i' hi')]
      simp [hbefore i hij]

/-- C6, witness: `{a: 1, a: 2, b: 3}` fails with `duplicate_field("a")`, and
`{a: 0}` (field `b` never seen) fails with `missing_field("b")`. -/
theorem struct_map_duplicate_and_missing_witness :
    DependentStruct.deserialize "Foo" () [fieldA, fieldB]
      (.map ((Key.name fieldA.name, Value.int 1) :: (Key.name fieldA.name, Value.int 2)
        :: [(Key.name fieldB.name, Value.int 3)]))
      = .err (.duplicateField fieldA.name)
    ∧ DependentStruct.deserialize "Foo" () [fieldA, fieldB]
        (.map ([0].map (canonicalEntry [fieldA, fieldB] (fun j => Value.int (Int.ofNat j)))))
        = .err (.missingField fieldB.name) :=
  ⟨(struct_map_duplicate_and_missing "Foo" ()).1 [fieldA, fieldB] 0 fieldA (by decide) rfl
      (Value.int 1) (Value.int 2) 1 rfl [(Key.name fieldB.name, Value.int 3)],
   (struct_map_duplicate_and_missing "Foo" ()).2 [fieldA, fieldB]
      (fun j => Value.int (Int.ofNat j)) (fun j => Int.ofNat j) (by decide) fieldAB_dec
      [0] (by decide) (by decide) 1 fieldB rfl (by decide) (by decide)⟩

/-- One declared variant of `impl_deserialize_seed_for_dependent_enum!`: its
name (`stringify!($variant)`) and its payload-seed derivation
`$local_deserialize_seed : Seed -> DeserializeSeed`, fused with the derived
seed's `deserialize` into `Base → Value → Except DeError P`. -/
structure VariantSpec (Base P : Type) where
  name : String
  deriveSeed : Base → Value → Except DeError P

/-- The enum `FieldVisitor` (src/rust_enum.rs, lines 81-127) through
`deserialize_identifier`: `visit_u64` rejects an out-of-range ordinal with
`invalid_value(Unexpected::Unsigned(value), "variant index should be <
FIELD_COUNT")`; `visit_str` scans the declared names and rejects an unmatched
name with `unknown_variant(value, FIELDS)`; `visit_bytes` does the same,
lossily decoding the offending token for the error. -/
def enumFieldId (names : List String) : Key → Except DeError Nat
  | .ord n =>
    if n ≥ names.length then
      .error (.invalidValueUnsigned n ("variant index should be < " ++ toString names.length))
    else
      .ok n
  | .name s =>
    match firstMatchIdx names s with
    | some i => .ok i
    | none => .error (.unknownVariant s names)
  | .bytes s =>
    match firstMatchIdx names s with
    | some i => .ok i
    | none => .error (.unknownVariant s names)

/-- The macro-generated `ResultVisitor::visit_enum` plus `deserialize_enum`
(src/rust_enum.rs, lines 156-180): read the discriminant through the enum
`FieldVisitor`, then dispatch on the resolved index `i`, deriving exactly the
`i`-th variant's seed from the base and decoding the single payload with it;
the result is the `i`-th case holding the payload, modelled as the pair
`(i, payload)`.  The `unreachable!()` after the dispatch loop is a panic. -/
def DependentEnum.deserialize {Base P : Type} (base : Base)
    (variants : List (VariantSpec Base P)) (disc : Key) (payload : Value) :
    DeOutcome (Nat × P) :=
  match enumFieldId (variants.map VariantSpec.name) disc with
  | .error e => .err e
  | .ok i =>
    match variants[i]? with
    | none => .panic "internal error: entered unreachable code"
    | some vs =>
      match vs.deriveSeed base payload with
      | .error e => .err e
      | .ok p => .ok (i, p)

/-- C8, counterexample: with the two declared variants `A, B`, the
out-of-range ordinal discriminant `2` fails with
`invalid_value(Unexpected::Unsigned(2), "variant index should be < 2")` — an
`InvalidValue` error that does not list the declared variant names — not with
the `UnknownVariant` error the claim promises for every unknown
discriminant. -/
theorem enum_ordinal_not_unknown_variant :
    DependentEnum.deserialize () [(⟨"A", fun _ => intSeed⟩ : VariantSpec Unit Int),
        ⟨"B", fun _ => intSeed⟩] (.ord 2) (.int 0)
      = .err (.invalidValueUnsigned 2 ("variant index should be < " ++ toString 2)) := by
  rfl

/-- C8 (amended): an unknown discriminant always causes the enum decode to
fail — it is never skipped — but the error kind depends on the token: an
ordinal outside `[0, N)` fails with `invalid_value(Unexpected::Unsigned(n),
"variant index should be < N")` (not `UnknownVariant`, and without listing
the variant names), while a name or raw-bytes token matching no declared
variant fails with `unknown_variant(token, FIELDS)` naming the token and
listing the declared variant names. -/
theorem enum_unknown_discriminant_fails {Base P : Type} (base : Base)
    (variants : List (VariantSpec Base P)) (payload : Value) :
    (∀ n : Nat, variants.length ≤ n →
      DependentEnum.deserialize base variants (.ord n) payload
        = .err (.invalidValueUnsigned n
            ("variant index should be < " ++ toString variants.length)))
    ∧ (∀ s : String, s ∉ variants.map VariantSpec.name →
      DependentEnum.deserialize base variants (.name s) payload
        = .err (.unknownVariant s (variants.map VariantSpec.name)))
    ∧ ∀ s : String, s ∉ variants.map VariantSpec.name →
      DependentEnum.deserialize base variants (.bytes s) payload
        = .err (.unknownVariant s (variants.map VariantSpec.name)) := by
  have hnomatch : ∀ (names : List String) (s : String), s ∉ names →
      firstMatchIdx names s = none := by
    intro names
    induction names with
    | nil => intro s _; rfl
    | cons n ns ih =>
      intro s hs
      have h1 : s ≠ n := by
        intro he
        exact hs (by simp [he])
      have h2 : s ∉ ns := fun hm => hs (List.mem_cons_of_mem n hm)
      simp [firstMatchIdx, h1, ih s h2]
  refine ⟨?_, ?_, ?_⟩
  · intro n hn
    simp [DependentEnum.deserialize, enumFieldId, hn]
  · intro s hs
    have : firstMatchIdx (variants.map VariantSpec.name) s = none := hnomatch _ s hs
    simp [DependentEnum.deserialize, enumFieldId, this]
  · intro s hs
    have : firstMatchIdx (variants.map VariantSpec.name) s = none := hnomatch _ s hs
    simp [DependentEnum.deserialize, enumFieldId, this]

/-- C8, witness: with variants `A, B`, ordinal `5`, name `"C"` and bytes
`"C"` all fail with the respective errors. -/
theorem enum_unknown_discriminant_fails_witness :
    DependentEnum.deserialize () [(⟨"A", fun _ => intSeed⟩ : VariantSpec Unit Int),
        ⟨"B", fun _ => intSeed⟩] (.ord 5) (.int 0)
      = .err (.invalidValueUnsigned 5 ("variant index should be < " ++ toString 2))
    ∧ DependentEnum.deserialize () [(⟨"A", fun _ => intSeed⟩ : VariantSpec Unit Int),
        ⟨"B", fun _ => intSeed⟩] (.name "C") (.int 0)
      = .err (.unknownVariant "C" ["A", "B"])
    ∧ DependentEnum.deserialize () [(⟨"A", fun _ => intSeed⟩ : VariantSpec Unit Int),
        ⟨"B", fun _ => intSeed⟩] (.bytes "C") (.int 0)
      = .err (.unknownVariant "C" ["A", "B"]) :=
  ⟨(enum_unknown_discriminant_fails () _ (.int 0)).1 5 (by decide),
   (enum_unknown_discriminant_fails () _ (.int 0)).2.1 "C" (by decide),
   (enum_unknown_discriminant_fails () _ (.int 0)).2.2 "C" (by decide)⟩

/-- C9: once the discriminant resolves to variant index `i`, the enum decoder
performs exactly one payload decode, with exactly the `i`-th variant's seed
derivation applied to the base seed, and wraps the decoded payload as the
`i`-th case: (1) by-ordinal dispatch equals the `i`-th variant's payload
decode; (2) likewise by-name dispatch under distinct variant names; (3) the
result depends on no other variant's derivation function — any variant list
with the same names and the same `i`-th derivation decodes identically; (4)
decoding an encoded variant `(i, payload)` whose payload seed round-trips
yields the same case with the same payload. -/
theorem enum_dispatch {Base P : Type} (base : Base) :
    (∀ (variants : List (VariantSpec Base P)) (i : Nat) (vs : VariantSpec Base P)
       (payload : Value), variants[i]? = some vs →
      DependentEnum.deserialize base variants (.ord i) payload
        = liftSeed ((vs.deriveSeed base payload).map (fun p => (i, p))))
    ∧ (∀ (variants : List (VariantSpec Base P)) (i : Nat) (vs : VariantSpec Base P)
        (payload : Value), (variants.map VariantSpec.name).Nodup →
        variants[i]? = some vs →
        DependentEnum.deserialize base variants (.name vs.name) payload
          = liftSeed ((vs.deriveSeed base payload).map (fun p => (i, p))))
    ∧ (∀ (variants variants' : List (VariantSpec Base P)) (i : Nat)
        (vs vs' : VariantSpec Base P) (payload : Value),
        variants.map VariantSpec.name = variants'.map VariantSpec.name →
        variants[i]? = some vs → variants'[i]? = some vs' →
        vs.deriveSeed = vs'.deriveSeed →
        DependentEnum.deserialize base variants (.ord i) payload
          = DependentEnum.deserialize base variants' (.ord i) payload)
    ∧ ∀ (variants : List (VariantSpec Base P)) (i : Nat) (vs : VariantSpec Base P)
        (payload : Value) (p : P), variants[i]? = some vs →
        vs.deriveSeed base payload = Except.ok p →
        DependentEnum.deserialize base variants (.ord i) payload = .ok (i, p) := by
  have hord : ∀ (variants : List (VariantSpec Base P)) (i : Nat)
      (vs : VariantSpec Base P) (payload : Value), variants[i]? = some vs →
      DependentEnum.deserialize base variants (.ord i) payload
        = liftSeed ((vs.deriveSeed base payload).map (fun p => (i, p))) := by
    intro variants i vs payload hget
    have hilt : i < variants.length := (List.getElem?_eq_some.mp hget).1
    have hnot : ¬ i ≥ (variants.map VariantSpec.name).length := by simpa using hilt
    have hid : enumFieldId (variants.map VariantSpec.name) (.ord i) = .ok i := by
      simp [enumFieldId, hnot, hilt]
    simp only [DependentEnum.deserialize, hid, hget]
    cases h : vs.deriveSeed base payload <;> simp [liftSeed, Except.map, h]
  refine ⟨hord, ?_, ?_, ?_⟩
  · intro variants i vs payload hnd hget
    have hname : (variants.map VariantSpec.name)[i]? = some vs.name := by
      rw [List.getElem?_map, hget]
      rfl
    have hfm := firstMatchIdx_of_nodup _ hnd i vs.name hname
    have hid : enumFieldId (variants.map VariantSpec.name) (.name vs.name) = .ok i := by
      simp [enumFieldId, hfm]
    simp only [DependentEnum.deserialize, hid, hget]
    cases h : vs.deriveSeed base payload <;> simp [liftSeed, Except.map, h]
  · intro variants variants' i vs vs' payload hnames hget hget' hderive
    rw [hord variants i vs payload hget, hord variants' i vs' payload hget', hderive]
  · intro variants i vs payload p hget hdec
    rw [hord variants i vs payload hget, hdec]
    rfl

/-- Variant `A` of the 2-variant test enum. -/
def variantA : VariantSpec Unit Int := ⟨"A", fun _ => intSeed⟩

/-- Variant `B` of the 2-variant test enum. -/
def variantB : VariantSpec Unit Int := ⟨"B", fun _ => intSeed⟩

/-- C9, witness: with variants `A, B`, the discriminant `B` (by name) and the
ordinal `1` both decode the payload with variant `B`'s seed and wrap it as
case 1; swapping in a different derivation for `A` only does not change the
by-ordinal result; an encoded `(1, 5)` round-trips. -/
theorem enum_dispatch_witness :
    DependentEnum.deserialize () [variantA, variantB] (.ord 1) (.int 5)
      = liftSeed ((variantB.deriveSeed () (.int 5)).map (fun p => (1, p)))
    ∧ DependentEnum.deserialize () [variantA, variantB] (.name variantB.name) (.int 5)
      = liftSeed ((variantB.deriveSeed () (.int 5)).map (fun p => (1, p)))
    ∧ DependentEnum.deserialize () [variantA, variantB] (.ord 1) (.int 5)
      = DependentEnum.deserialize ()
          [⟨"A", fun _ => fun _ => .error (.custom "other derivation")⟩, variantB]
          (.ord 1) (.int 5)
    ∧ DependentEnum.deserialize () [variantA, variantB] (.ord 1) (.int 5) = .ok (1, 5) :=
  ⟨(enum_dispatch ()).1 [variantA, variantB] 1 variantB (.int 5) rfl,
   (enum_dispatch ()).2.1 [variantA, variantB] 1 variantB (.int 5) (by decide) rfl,
   (enum_dispatch ()).2.2.1 [variantA, variantB]
     [⟨"A", fun _ => fun _ => .error (.custom "other derivation")⟩, variantB] 1
     variantB variantB (.int 5) rfl rfl rfl rfl,
   (enum_dispatch ()).2.2.2 [variantA, variantB] 1 variantB (.int 5) 5 rfl rfl⟩
